import Mathlib

/-!
Verification of the `CodeBuffer` component of `wheremyfoodat/vixl`
(`src/code-buffer-vixl.cc`), a fixed-capacity byte buffer used to
assemble machine code.

The buffer state is embedded shallowly: the raw region is a `List Nat`
of byte values, the write cursor is the offset `cursorOff` so that the
cursor pointer is `base + cursorOff`, and fallible operations return
`Except Fault _` where a fatal assertion (`VIXL_ASSERT` / `VIXL_CHECK`)
maps to `Fault.fatalAssert` and an explicit C++ `throw` maps to
`Fault.cppException`.
-/

namespace Vixl

/-- Failure modes of `CodeBuffer` operations. `fatalAssert` is a
process-terminating assertion (`VIXL_ASSERT` / `VIXL_CHECK` /
`VIXL_UNIMPLEMENTED`); `cppException` is an explicit C++
`throw std::runtime_error` as in `CodeBuffer::Grow`. -/
inductive Fault where
  | fatalAssert
  | cppException
  deriving DecidableEq, Repr

/-- Shallow embedding of the `CodeBuffer` class state:
`buffer_` is `base` (the numeric address, `0` for `NULL`),
`managed_` is `managed`, `cursor_` is `base + cursorOff`,
`dirty_` is `dirty`, `capacity_` is `capacity`, and the bytes of the
backing region are `mem` (length `capacity` for a live buffer). -/
structure CodeBuffer where
  base : Nat
  managed : Bool
  cursorOff : Nat
  dirty : Bool
  capacity : Nat
  mem : List Nat
  deriving DecidableEq, Repr

/-- Modelled from the spec: `CodeBuffer::HasSpaceFor` lives in
`code-buffer-vixl.h`, which is absent from the sources; the spec says
`EmitData` "requires the buffer to have at least `size` bytes of
remaining capacity from `cursor` to end of region". -/
def CodeBuffer.hasSpaceFor (cb : CodeBuffer) (size : Nat) : Bool :=
  cb.cursorOff + size ≤ cb.capacity

/-- Embedding of `memcpy(mem + off, data, data.length)`: overwrite the
bytes of `mem` at offsets `[off, off + data.length)` with `data`. -/
def writeBytes (mem : List Nat) (off : Nat) (data : List Nat) : List Nat :=
  mem.take off ++ data ++ mem.drop (off + data.length)

/-- Embedding of the allocating constructor `CodeBuffer::CodeBuffer(size_t)`.
`alloc` is the address returned by the allocation backend (`0` for a
failed allocation) and `init` the (arbitrary) initial contents of the
allocated region. With `capacity == 0` the constructor returns early
with a null region; otherwise it checks `VIXL_CHECK(buffer_ != NULL)`
and `VIXL_ASSERT(IsWordAligned(buffer_))` and points the cursor at the
start of the region. -/
def CodeBuffer.create (capacity : Nat) (alloc : Nat) (init : List Nat) :
    Except Fault CodeBuffer :=
  if capacity = 0 then
    .ok ⟨0, true, 0, false, 0, []⟩
  else if alloc = 0 then
    .error .fatalAssert
  else if alloc % 4 ≠ 0 then
    .error .fatalAssert
  else
    .ok ⟨alloc, true, 0, false, capacity, init⟩

/-- Embedding of the wrapping constructor
`CodeBuffer::CodeBuffer(byte*, size_t)`: adopts caller memory at
address `buffer` with contents `init`, asserting the address is
non-null; `managed_` is `false` and no alignment is asserted. -/
def CodeBuffer.wrap (buffer : Nat) (capacity : Nat) (init : List Nat) :
    Except Fault CodeBuffer :=
  if buffer = 0 then .error .fatalAssert
  else .ok ⟨buffer, false, 0, false, capacity, init⟩

/-- Embedding of `CodeBuffer::EmitData`: asserts `HasSpaceFor(size)`,
sets `dirty_`, copies the bytes at the cursor and advances the cursor
by `size`. -/
def CodeBuffer.emitData (cb : CodeBuffer) (data : List Nat) :
    Except Fault CodeBuffer :=
  if cb.hasSpaceFor data.length then
    .ok { cb with
          dirty := true
          mem := writeBytes cb.mem cb.cursorOff data
          cursorOff := cb.cursorOff + data.length }
  else
    .error .fatalAssert

/-- Embedding of `CodeBuffer::UpdateData`: sets `dirty_`, asserts
`dst + size <= cursor_` (i.e. `offset + size <= cursorOff`), then
copies the bytes in place without moving the cursor. -/
def CodeBuffer.updateData (cb : CodeBuffer) (offset : Nat)
    (data : List Nat) : Except Fault CodeBuffer :=
  if offset + data.length ≤ cb.cursorOff then
    .ok { cb with
          dirty := true
          mem := writeBytes cb.mem offset data }
  else
    .error .fatalAssert

/-- Embedding of `CodeBuffer::EmitZeroedBytes`: `EnsureSpaceFor(n)`
(modelled from the spec: "requires ensuring `n` bytes of remaining
capacity (fails the same way as `EmitData` if insufficient)", since
`EnsureSpaceFor` is declared in the missing header), then sets
`dirty_`, `memset`s `n` zero bytes at the cursor and advances it. -/
def CodeBuffer.emitZeroedBytes (cb : CodeBuffer) (n : Nat) :
    Except Fault CodeBuffer :=
  if cb.hasSpaceFor n then
    .ok { cb with
          dirty := true
          mem := writeBytes cb.mem cb.cursorOff (List.replicate n 0)
          cursorOff := cb.cursorOff + n }
  else
    .error .fatalAssert

/-- Modelled from the spec: `AlignUp` lives in `utils-vixl.h`, absent
from the sources; it rounds an address up to the next multiple of the
boundary (identity on already aligned addresses). -/
def alignUp (x : Nat) (boundary : Nat) : Nat :=
  ((x + boundary - 1) / boundary) * boundary

/-- Embedding of `CodeBuffer::Align`: computes
`padding = AlignUp(cursor_, 4) - cursor_` on the cursor pointer
`base + cursorOff`, asserts `padding <= 4`, and emits that many zero
bytes. -/
def CodeBuffer.align (cb : CodeBuffer) : Except Fault CodeBuffer :=
  let endAddr := alignUp (cb.base + cb.cursorOff) 4
  let padding := endAddr - (cb.base + cb.cursorOff)
  if padding ≤ 4 then cb.emitZeroedBytes padding
  else .error .fatalAssert

/-- Embedding of `CodeBuffer::Reset`: in debug builds
(`VIXL_DEBUG`, a compile-time flag passed here as `debug`) and only for
managed memory, zero-fills the whole region; then rewinds the cursor to
the region base and clears the dirty flag (`SetClean`, modelled from
the spec: "clears `dirty`", as the header is absent). -/
def CodeBuffer.reset (debug : Bool) (cb : CodeBuffer) : CodeBuffer :=
  let mem := if debug && cb.managed then List.replicate cb.capacity 0
             else cb.mem
  { cb with mem := mem, cursorOff := 0, dirty := false }

/-- Embedding of the destructor `CodeBuffer::~CodeBuffer`: asserts
`!IsDirty()`, then releases the backing memory (via `free` / `munmap` /
`VirtualFree`, matching the allocation backend) exactly when
`managed_`. The returned `Bool` records whether a release occurred. -/
def CodeBuffer.destroy (cb : CodeBuffer) : Except Fault Bool :=
  if cb.dirty then .error .fatalAssert
  else .ok cb.managed

/-- Embedding of `CodeBuffer::Grow`: unconditionally
`throw std::runtime_error(...)`, never returning a buffer. -/
def CodeBuffer.grow (_cb : CodeBuffer) (_newCapacity : Nat) :
    Except Fault CodeBuffer :=
  .error .cppException

/-- Sequential composition of `EmitData` calls, propagating the first
fatal fault. -/
def CodeBuffer.emitAll (cb : CodeBuffer) :
    List (List Nat) → Except Fault CodeBuffer
  | [] => .ok cb
  | d :: ds =>
    match cb.emitData d with
    | .ok cb2 => cb2.emitAll ds
    | .error e => .error e

/-- Total number of bytes in a list of byte sequences. -/
def sumSizes (ds : List (List Nat)) : Nat :=
  (ds.map List.length).sum

/-- State invariant of a live buffer: the cursor offset never exceeds
the capacity and the region really has `capacity` bytes. -/
def CodeBuffer.Inv (cb : CodeBuffer) : Prop :=
  cb.cursorOff ≤ cb.capacity ∧ cb.mem.length = cb.capacity

/-! ### Helper lemmas about `writeBytes` -/

theorem writeBytes_length (mem : List Nat) (off : Nat) (data : List Nat)
    (h : off + data.length ≤ mem.length) :
    (writeBytes mem off data).length = mem.length := by
  simp only [writeBytes, List.length_append, List.length_take,
    List.length_drop]
  omega

theorem writeBytes_nil (mem : List Nat) (off : Nat) :
    writeBytes mem off [] = mem := by
  simp [writeBytes]

theorem writeBytes_take_to_end (mem : List Nat) (off : Nat)
    (data : List Nat) (h : off ≤ mem.length) :
    (writeBytes mem off data).take (off + data.length) =
      mem.take off ++ data := by
  have hlen : (mem.take off ++ data).length = off + data.length := by
    simp [Nat.min_eq_left h]
  simp only [writeBytes, ← List.append_assoc]
  exact List.take_left' hlen

theorem writeBytes_drop_suffix (mem : List Nat) (off : Nat)
    (data : List Nat) (h : off ≤ mem.length) :
    (writeBytes mem off data).drop (off + data.length) =
      mem.drop (off + data.length) := by
  have hlen : (mem.take off ++ data).length = off + data.length := by
    simp [Nat.min_eq_left h]
  simp only [writeBytes, ← List.append_assoc]
  exact List.drop_left' hlen

theorem writeBytes_take_prefix (mem : List Nat) (off : Nat)
    (data : List Nat) (h : off ≤ mem.length) :
    (writeBytes mem off data).take off = mem.take off := by
  have h1 : (writeBytes mem off data).take off =
      ((writeBytes mem off data).take (off + data.length)).take off := by
    rw [List.take_take, Nat.min_eq_left (Nat.le_add_right off data.length)]
  rw [h1, writeBytes_take_to_end mem off data h]
  exact List.take_left' (by simp [Nat.min_eq_left h])

theorem writeBytes_getElem? (mem : List Nat) (off : Nat)
    (data : List Nat) (i : Nat) (hoff : off + data.length ≤ mem.length) :
    (writeBytes mem off data)[i]? =
      if i < off then mem[i]?
      else if i < off + data.length then data[i - off]?
      else mem[i]? := by
  have hto : (mem.take off).length = off := by
    simp [Nat.min_eq_left (le_trans (Nat.le_add_right off data.length) hoff)]
  have hlen : (mem.take off ++ data).length = off + data.length := by
    simp [hto]
  simp only [writeBytes]
  rcases Nat.lt_or_ge i off with h1 | h1
  · rw [List.getElem?_append_left (by rw [List.length_append, hto]; omega),
      List.getElem?_append_left (by rw [hto]; omega),
      List.getElem?_take_of_lt h1]
    simp [h1]
  · rcases Nat.lt_or_ge i (off + data.length) with h2 | h2
    · rw [List.getElem?_append_left (by rw [List.length_append, hto]; omega),
        List.getElem?_append_right (by rw [hto]; omega), hto]
      simp [Nat.not_lt.mpr h1, h2]
    · rw [List.getElem?_append_right (by rw [List.length_append, hto]; omega),
        List.getElem?_drop, List.length_append, hto]
      have heq : off + data.length + (i - (off + data.length)) = i := by
        omega
      rw [heq]
      simp [Nat.not_lt.mpr h1, Nat.not_lt.mpr h2]

/-! ### Helper lemmas about `alignUp` and `align` -/

theorem alignUp_four_sub (x : Nat) :
    alignUp x 4 - x = (4 - x % 4) % 4 := by
  unfold alignUp
  omega

theorem alignUp_four_le (x : Nat) : alignUp x 4 - x ≤ 3 := by
  rw [alignUp_four_sub]
  omega

theorem align_eq_emitZeroedBytes (cb : CodeBuffer) :
    cb.align =
      cb.emitZeroedBytes ((4 - (cb.base + cb.cursorOff) % 4) % 4) := by
  unfold CodeBuffer.align
  rw [if_pos (le_trans (alignUp_four_le _) (by omega))]
  rw [alignUp_four_sub]

/-! ### Claims -/

/-- C2: for every `capacity > 0`, construction yields a buffer whose
cursor sits at the region base (offset `0`) with `dirty == false`;
with `capacity == 0` the construction succeeds and produces a valid
empty buffer with no backing region and a null cursor. -/
theorem create_spec (capacity alloc : Nat) (init : List Nat) :
    (capacity = 0 → CodeBuffer.create capacity alloc init =
      Except.ok ⟨0, true, 0, false, 0, []⟩) ∧
    (∀ cb, CodeBuffer.create capacity alloc init = Except.ok cb →
      cb.cursorOff = 0 ∧ cb.dirty = false ∧ cb.managed = true ∧
      (capacity ≠ 0 →
        cb.base = alloc ∧ cb.capacity = capacity ∧ cb.mem = init)) := by
  constructor
  · intro hc
    subst hc
    rfl
  · intro cb h
    unfold CodeBuffer.create at h
    split at h
    · rename_i hc
      simp only [Except.ok.injEq] at h
      subst h
      simp [hc]
    · split at h
      · simp at h
      · split at h
        · simp at h
        · simp only [Except.ok.injEq] at h
          subst h
          simp

/-- C2 witness: a concrete construction with capacity 8 at word-aligned
address 4 satisfies the specification. -/
theorem create_spec_witness :
    (8 = 0 → CodeBuffer.create 8 4 (List.replicate 8 0) =
      Except.ok ⟨0, true, 0, false, 0, []⟩) ∧
    (∀ cb, CodeBuffer.create 8 4 (List.replicate 8 0) = Except.ok cb →
      cb.cursorOff = 0 ∧ cb.dirty = false ∧ cb.managed = true ∧
      (8 ≠ 0 →
        cb.base = 4 ∧ cb.capacity = 8 ∧ cb.mem = List.replicate 8 0)) :=
  create_spec 8 4 (List.replicate 8 0)

/-- C3: `EmitData` with a size exceeding the remaining capacity hits
the fatal capacity-violation assertion (it does not return a buffer);
when at least `size` bytes remain, that branch is unreachable and the
write fully completes, advancing the cursor and appending exactly the
given bytes. -/
theorem emitData_capacity (cb : CodeBuffer) (data : List Nat) :
    (cb.hasSpaceFor data.length = false →
      cb.emitData data = Except.error Fault.fatalAssert) ∧
    (cb.hasSpaceFor data.length = true → cb.mem.length = cb.capacity →
      ∃ cb', cb.emitData data = Except.ok cb' ∧
        cb'.cursorOff = cb.cursorOff + data.length ∧
        cb'.mem.take cb'.cursorOff =
          cb.mem.take cb.cursorOff ++ data) := by
  constructor
  · intro hfail
    unfold CodeBuffer.emitData
    rw [if_neg]
    simp [hfail]
  · intro hok hmem
    have hle : cb.cursorOff + data.length ≤ cb.capacity := by
      simpa [CodeBuffer.hasSpaceFor] using hok
    refine ⟨_, by unfold CodeBuffer.emitData; rw [if_pos hok], rfl, ?_⟩
    exact writeBytes_take_to_end cb.mem cb.cursorOff data (by omega)

/-- C3 witness: a 2-byte buffer rejects a 3-byte emit with the fatal
assertion and accepts a 2-byte emit, which fully completes. -/
theorem emitData_capacity_witness :
    ((⟨4, true, 0, false, 2, [0, 0]⟩ : CodeBuffer).emitData [1, 2, 3] =
      Except.error Fault.fatalAssert) ∧
    (∃ cb', (⟨4, true, 0, false, 2, [0, 0]⟩ : CodeBuffer).emitData [9, 8] =
        Except.ok cb' ∧
      cb'.cursorOff = 0 + 2 ∧
      cb'.mem.take cb'.cursorOff =
        ([0, 0] : List Nat).take 0 ++ [9, 8]) :=
  ⟨(emitData_capacity ⟨4, true, 0, false, 2, [0, 0]⟩ [1, 2, 3]).1
      (by decide),
   (emitData_capacity ⟨4, true, 0, false, 2, [0, 0]⟩ [9, 8]).2
      (by decide) (by decide)⟩

/-- C6: `Reset` rewinds the cursor to the region start and clears the
dirty flag in every state; with the debug flag set and managed memory
the whole region is zero-filled, otherwise the region contents are left
unchanged; capacity, base and ownership are untouched. -/
theorem reset_spec (debug : Bool) (cb : CodeBuffer) :
    (CodeBuffer.reset debug cb).cursorOff = 0 ∧
    (CodeBuffer.reset debug cb).dirty = false ∧
    (debug = true → cb.managed = true →
      (CodeBuffer.reset debug cb).mem = List.replicate cb.capacity 0) ∧
    (debug = false ∨ cb.managed = false →
      (CodeBuffer.reset debug cb).mem = cb.mem) ∧
    (CodeBuffer.reset debug cb).capacity = cb.capacity ∧
    (CodeBuffer.reset debug cb).base = cb.base ∧
    (CodeBuffer.reset debug cb).managed = cb.managed := by
  refine ⟨rfl, rfl, ?_, ?_, rfl, rfl, rfl⟩
  · intro hd hm
    simp [CodeBuffer.reset, hd, hm]
  · intro hcase
    rcases hcase with hd | hm
    · simp [CodeBuffer.reset, hd]
    · simp [CodeBuffer.reset, hm]

/-- C6 witness: resetting a concrete dirty managed buffer in debug mode
rewinds the cursor, clears the dirty bit and zero-fills the region. -/
theorem reset_spec_witness :
    (CodeBuffer.reset true ⟨4, true, 2, true, 2, [7, 7]⟩).cursorOff = 0 ∧
    (CodeBuffer.reset true ⟨4, true, 2, true, 2, [7, 7]⟩).dirty = false ∧
    (true = true → (true : Bool) = true →
      (CodeBuffer.reset true ⟨4, true, 2, true, 2, [7, 7]⟩).mem =
        List.replicate 2 0) ∧
    ((true : Bool) = false ∨ (true : Bool) = false →
      (CodeBuffer.reset true ⟨4, true, 2, true, 2, [7, 7]⟩).mem = [7, 7]) ∧
    (CodeBuffer.reset true ⟨4, true, 2, true, 2, [7, 7]⟩).capacity = 2 ∧
    (CodeBuffer.reset true ⟨4, true, 2, true, 2, [7, 7]⟩).base = 4 ∧
    (CodeBuffer.reset true ⟨4, true, 2, true, 2, [7, 7]⟩).managed = true :=
  reset_spec true ⟨4, true, 2, true, 2, [7, 7]⟩

/-- C7: destroying a dirty buffer fails the safety assertion; with
`dirty == false` destruction succeeds and releases the backing memory
exactly when the buffer manages (owns) it, performing no release for
wrapped memory. -/
theorem destroy_spec (cb : CodeBuffer) :
    (cb.dirty = true → cb.destroy = Except.error Fault.fatalAssert) ∧
    (cb.dirty = false → cb.destroy = Except.ok cb.managed) := by
  constructor
  · intro hd
    simp [CodeBuffer.destroy, hd]
  · intro hd
    simp [CodeBuffer.destroy, hd]

/-- C7 witness: a concrete dirty buffer fails the assertion, and after
clearing the dirty bit a managed buffer releases its memory while a
wrapped one does not. -/
theorem destroy_spec_witness :
    ((⟨4, true, 1, true, 2, [7, 0]⟩ : CodeBuffer).destroy =
      Except.error Fault.fatalAssert) ∧
    ((⟨4, true, 1, false, 2, [7, 0]⟩ : CodeBuffer).destroy =
      Except.ok true) ∧
    ((⟨4, false, 1, false, 2, [7, 0]⟩ : CodeBuffer).destroy =
      Except.ok false) :=
  ⟨(destroy_spec ⟨4, true, 1, true, 2, [7, 0]⟩).1 rfl,
   (destroy_spec ⟨4, true, 1, false, 2, [7, 0]⟩).2 rfl,
   (destroy_spec ⟨4, false, 1, false, 2, [7, 0]⟩).2 rfl⟩

/-- C8 counterexample: `Grow` fails by throwing a recoverable C++
exception (`std::runtime_error`), not by a process-terminating
assertion, refuting the claim that the failure is "a
process-terminating fault (not a recoverable exception)". -/
theorem grow_counterexample :
    CodeBuffer.grow ⟨4, true, 0, false, 8, List.replicate 8 0⟩ 16 =
      Except.error Fault.cppException ∧
    Fault.cppException ≠ Fault.fatalAssert := by
  constructor
  · rfl
  · decide

/-- C8 (amended): every call to `Grow`, for any requested capacity,
fails unconditionally by throwing an exception and never returns a
modified buffer, so the capacity and all other state are unchanged;
the failure is a thrown `std::runtime_error`, not a process-terminating
assertion. -/
theorem grow_always_throws (cb : CodeBuffer) (newCapacity : Nat) :
    cb.grow newCapacity = Except.error Fault.cppException := rfl

/-- C4: `UpdateData` with `offset + size <= cursor` overwrites exactly
the `size` bytes starting at `offset`, leaves every other byte and the
cursor unchanged and sets the dirty flag; `offset + size` beyond the
cursor is a fatal fault. -/
theorem updateData_spec (cb : CodeBuffer) (offset : Nat)
    (data : List Nat) (hmem : cb.cursorOff ≤ cb.mem.length) :
    (offset + data.length ≤ cb.cursorOff →
      ∃ cb', cb.updateData offset data = Except.ok cb' ∧
        cb'.cursorOff = cb.cursorOff ∧ cb'.dirty = true ∧
        cb'.capacity = cb.capacity ∧ cb'.base = cb.base ∧
        cb'.mem.length = cb.mem.length ∧
        (∀ i, i < data.length → cb'.mem[offset + i]? = data[i]?) ∧
        (∀ i, i < offset ∨ offset + data.length ≤ i →
          cb'.mem[i]? = cb.mem[i]?)) ∧
    (cb.cursorOff < offset + data.length →
      cb.updateData offset data = Except.error Fault.fatalAssert) := by
  constructor
  · intro hpre
    have hoff : offset + data.length ≤ cb.mem.length := le_trans hpre hmem
    refine ⟨⟨cb.base, cb.managed, cb.cursorOff, true, cb.capacity,
      writeBytes cb.mem offset data⟩,
      by unfold CodeBuffer.updateData; rw [if_pos hpre],
      rfl, rfl, rfl, rfl, writeBytes_length _ _ _ hoff, ?_, ?_⟩
    · intro i hi
      show (writeBytes cb.mem offset data)[offset + i]? = data[i]?
      rw [writeBytes_getElem? _ _ _ _ hoff]
      have h1 : ¬ offset + i < offset := by omega
      have h2 : offset + i < offset + data.length := by omega
      simp [h1, h2, Nat.add_sub_cancel_left]
    · intro i hi
      show (writeBytes cb.mem offset data)[i]? = cb.mem[i]?
      rw [writeBytes_getElem? _ _ _ _ hoff]
      rcases hi with h1 | h1
      · simp [h1]
      · have h2 : ¬ i < offset := by omega
        have h3 : ¬ i < offset + data.length := by omega
        simp [h2, h3]
  · intro hpost
    unfold CodeBuffer.updateData
    rw [if_neg (by omega)]

/-- C4 witness: patching one byte at offset 0 of a buffer whose cursor
is at 2 succeeds and leaves the other bytes alone, while a patch ending
beyond the cursor faults. -/
theorem updateData_spec_witness :
    ((0 + 1 ≤ 2 →
      ∃ cb', (⟨4, true, 2, true, 3, [1, 2, 3]⟩ : CodeBuffer).updateData
          0 [255] = Except.ok cb' ∧
        cb'.cursorOff = 2 ∧ cb'.dirty = true ∧
        cb'.capacity = 3 ∧ cb'.base = 4 ∧
        cb'.mem.length = 3 ∧
        (∀ i, i < 1 → cb'.mem[0 + i]? = [(255 : Nat)][i]?) ∧
        (∀ i, i < 0 ∨ 0 + 1 ≤ i →
          cb'.mem[i]? = [(1 : Nat), 2, 3][i]?)) ∧
    (2 < 0 + 1 →
      (⟨4, true, 2, true, 3, [1, 2, 3]⟩ : CodeBuffer).updateData 0 [255] =
        Except.error Fault.fatalAssert)) ∧
    (2 < 2 + 1 →
      (⟨4, true, 2, true, 3, [1, 2, 3]⟩ : CodeBuffer).updateData
        2 [255] = Except.error Fault.fatalAssert) :=
  ⟨updateData_spec ⟨4, true, 2, true, 3, [1, 2, 3]⟩ 0 [255] (by decide),
   (updateData_spec ⟨4, true, 2, true, 3, [1, 2, 3]⟩ 2 [255]
      (by decide)).2⟩

/-- C5: with the region base word-aligned, `Align` emits the smallest
number of zero bytes (0 to 3) bringing the cursor to the next multiple
of 4 from the base, writes only zeros (bytes past the new cursor are
untouched), and an immediately repeated `Align` returns the exact same
state. -/
theorem align_spec (cb : CodeBuffer) (hbase : cb.base % 4 = 0)
    (hmem : cb.mem.length = cb.capacity)
    (hspace : cb.cursorOff + (4 - cb.cursorOff % 4) % 4 ≤ cb.capacity) :
    ∃ cb', cb.align = Except.ok cb' ∧
      cb'.cursorOff % 4 = 0 ∧
      cb'.cursorOff = cb.cursorOff + (4 - cb.cursorOff % 4) % 4 ∧
      (4 - cb.cursorOff % 4) % 4 ≤ 3 ∧
      cb'.mem.take cb'.cursorOff =
        cb.mem.take cb.cursorOff ++
          List.replicate ((4 - cb.cursorOff % 4) % 4) 0 ∧
      cb'.mem.drop cb'.cursorOff = cb.mem.drop cb'.cursorOff ∧
      cb'.align = Except.ok cb' := by
  have hpadeq : (4 - (cb.base + cb.cursorOff) % 4) % 4 =
      (4 - cb.cursorOff % 4) % 4 := by
    omega
  set pad := (4 - cb.cursorOff % 4) % 4 with hpadDef
  have hcur : cb.cursorOff ≤ cb.mem.length := by omega
  refine ⟨⟨cb.base, cb.managed, cb.cursorOff + pad, true, cb.capacity,
    writeBytes cb.mem cb.cursorOff (List.replicate pad 0)⟩,
    ?_, ?_, rfl, by omega, ?_, ?_, ?_⟩
  · rw [align_eq_emitZeroedBytes, hpadeq]
    unfold CodeBuffer.emitZeroedBytes
    rw [if_pos (by simp [CodeBuffer.hasSpaceFor]; omega)]
  · show (cb.cursorOff + pad) % 4 = 0
    omega
  · show (writeBytes cb.mem cb.cursorOff
        (List.replicate pad 0)).take (cb.cursorOff + pad) =
      cb.mem.take cb.cursorOff ++ List.replicate pad 0
    have := writeBytes_take_to_end cb.mem cb.cursorOff
      (List.replicate pad 0) hcur
    simpa using this
  · show (writeBytes cb.mem cb.cursorOff
        (List.replicate pad 0)).drop (cb.cursorOff + pad) =
      cb.mem.drop (cb.cursorOff + pad)
    have := writeBytes_drop_suffix cb.mem cb.cursorOff
      (List.replicate pad 0) hcur
    simpa using this
  · rw [align_eq_emitZeroedBytes]
    have hz : (4 - (cb.base + (cb.cursorOff + pad)) % 4) % 4 = 0 := by
      omega
    rw [hz]
    unfold CodeBuffer.emitZeroedBytes
    rw [if_pos (by simp [CodeBuffer.hasSpaceFor]; omega)]
    simp [writeBytes_nil]

/-- C5 witness: aligning a capacity 8 buffer with base 4 and cursor 1
pads with 3 zero bytes to cursor 4 and is then stable under a second
align. -/
theorem align_spec_witness :
    ∃ cb', (⟨4, true, 1, false, 8, [9, 9, 9, 9, 9, 9, 9, 9]⟩ :
        CodeBuffer).align = Except.ok cb' ∧
      cb'.cursorOff % 4 = 0 ∧
      cb'.cursorOff = 1 + (4 - 1 % 4) % 4 ∧
      (4 - 1 % 4) % 4 ≤ 3 ∧
      cb'.mem.take cb'.cursorOff =
        ([9, 9, 9, 9, 9, 9, 9, 9] : List Nat).take 1 ++
          List.replicate ((4 - 1 % 4) % 4) 0 ∧
      cb'.mem.drop cb'.cursorOff =
        ([9, 9, 9, 9, 9, 9, 9, 9] : List Nat).drop cb'.cursorOff ∧
      cb'.align = Except.ok cb' :=
  align_spec ⟨4, true, 1, false, 8, [9, 9, 9, 9, 9, 9, 9, 9]⟩
    (by decide) (by decide) (by decide)

/-- C9: every operation whose precondition holds preserves
`0 <= cursor offset <= capacity` together with the region length, never
changes the capacity, and never decreases the cursor except `Reset`,
which rewinds it to `0`. -/
theorem ops_preserve_inv (cb : CodeBuffer) (hInv : cb.Inv) :
    (∀ d cb', cb.emitData d = Except.ok cb' →
      cb'.Inv ∧ cb'.capacity = cb.capacity ∧
        cb.cursorOff ≤ cb'.cursorOff) ∧
    (∀ n cb', cb.emitZeroedBytes n = Except.ok cb' →
      cb'.Inv ∧ cb'.capacity = cb.capacity ∧
        cb.cursorOff ≤ cb'.cursorOff) ∧
    (∀ cb', cb.align = Except.ok cb' →
      cb'.Inv ∧ cb'.capacity = cb.capacity ∧
        cb.cursorOff ≤ cb'.cursorOff) ∧
    (∀ off d cb', cb.updateData off d = Except.ok cb' →
      cb'.Inv ∧ cb'.capacity = cb.capacity ∧
        cb'.cursorOff = cb.cursorOff) ∧
    (∀ debug, (CodeBuffer.reset debug cb).Inv ∧
      (CodeBuffer.reset debug cb).capacity = cb.capacity ∧
      (CodeBuffer.reset debug cb).cursorOff = 0) := by
  obtain ⟨hcur, hlen⟩ := hInv
  have hzero : ∀ n cb', cb.emitZeroedBytes n = Except.ok cb' →
      cb'.Inv ∧ cb'.capacity = cb.capacity ∧
        cb.cursorOff ≤ cb'.cursorOff := by
    intro n cb' h
    unfold CodeBuffer.emitZeroedBytes at h
    split at h
    · rename_i hsp
      simp only [Except.ok.injEq] at h
      subst h
      have hle : cb.cursorOff + n ≤ cb.capacity := by
        simpa [CodeBuffer.hasSpaceFor] using hsp
      refine ⟨⟨hle, ?_⟩, rfl, Nat.le_add_right _ _⟩
      show (writeBytes cb.mem cb.cursorOff
        (List.replicate n 0)).length = cb.capacity
      rw [writeBytes_length _ _ _ (by simp [hlen]; omega), hlen]
    · simp at h
  refine ⟨?_, hzero, ?_, ?_, ?_⟩
  · intro d cb' h
    unfold CodeBuffer.emitData at h
    split at h
    · rename_i hsp
      simp only [Except.ok.injEq] at h
      subst h
      have hle : cb.cursorOff + d.length ≤ cb.capacity := by
        simpa [CodeBuffer.hasSpaceFor] using hsp
      refine ⟨⟨hle, ?_⟩, rfl, Nat.le_add_right _ _⟩
      show (writeBytes cb.mem cb.cursorOff d).length = cb.capacity
      rw [writeBytes_length _ _ _ (by omega), hlen]
    · simp at h
  · intro cb' h
    rw [align_eq_emitZeroedBytes] at h
    exact hzero _ cb' h
  · intro off d cb' h
    unfold CodeBuffer.updateData at h
    split at h
    · rename_i hsp
      simp only [Except.ok.injEq] at h
      subst h
      refine ⟨⟨hcur, ?_⟩, rfl, rfl⟩
      show (writeBytes cb.mem off d).length = cb.capacity
      rw [writeBytes_length _ _ _ (by omega), hlen]
    · simp at h
  · intro debug
    refine ⟨⟨Nat.zero_le _, ?_⟩, rfl, rfl⟩
    show (if debug && cb.managed then List.replicate cb.capacity 0
      else cb.mem).length = cb.capacity
    split
    · simp
    · exact hlen

/-- C9 witness: the invariant facts hold when instantiated on a
concrete in-invariant buffer with capacity 2 and cursor 1. -/
theorem ops_preserve_inv_witness :
    (∀ d cb', (⟨4, true, 1, false, 2, [0, 0]⟩ :
        CodeBuffer).emitData d = Except.ok cb' →
      cb'.Inv ∧ cb'.capacity = 2 ∧ 1 ≤ cb'.cursorOff) ∧
    (∀ n cb', (⟨4, true, 1, false, 2, [0, 0]⟩ :
        CodeBuffer).emitZeroedBytes n = Except.ok cb' →
      cb'.Inv ∧ cb'.capacity = 2 ∧ 1 ≤ cb'.cursorOff) ∧
    (∀ cb', (⟨4, true, 1, false, 2, [0, 0]⟩ :
        CodeBuffer).align = Except.ok cb' →
      cb'.Inv ∧ cb'.capacity = 2 ∧ 1 ≤ cb'.cursorOff) ∧
    (∀ off d cb', (⟨4, true, 1, false, 2, [0, 0]⟩ :
        CodeBuffer).updateData off d = Except.ok cb' →
      cb'.Inv ∧ cb'.capacity = 2 ∧ cb'.cursorOff = 1) ∧
    (∀ debug, (CodeBuffer.reset debug
        ⟨4, true, 1, false, 2, [0, 0]⟩).Inv ∧
      (CodeBuffer.reset debug ⟨4, true, 1, false, 2, [0, 0]⟩).capacity =
        2 ∧
      (CodeBuffer.reset debug ⟨4, true, 1, false, 2, [0, 0]⟩).cursorOff =
        0) :=
  ops_preserve_inv ⟨4, true, 1, false, 2, [0, 0]⟩
    ⟨by decide, by decide⟩

/-- C10: a zero-sized `EmitData`, a zero-count `EmitZeroedBytes`, and
`Align` at an already 4-aligned cursor all set the dirty flag while
leaving the cursor and region contents unchanged, so destroying the
buffer afterwards without a reset fails the dirty assertion. -/
theorem zero_sized_emits_set_dirty (cb : CodeBuffer)
    (h : cb.cursorOff ≤ cb.capacity) :
    (∃ cb₁, cb.emitData [] = Except.ok cb₁ ∧ cb₁.dirty = true ∧
      cb₁.cursorOff = cb.cursorOff ∧ cb₁.mem = cb.mem ∧
      cb₁.destroy = Except.error Fault.fatalAssert) ∧
    (∃ cb₂, cb.emitZeroedBytes 0 = Except.ok cb₂ ∧ cb₂.dirty = true ∧
      cb₂.cursorOff = cb.cursorOff ∧ cb₂.mem = cb.mem ∧
      cb₂.destroy = Except.error Fault.fatalAssert) ∧
    ((cb.base + cb.cursorOff) % 4 = 0 →
      ∃ cb₃, cb.align = Except.ok cb₃ ∧ cb₃.dirty = true ∧
        cb₃.cursorOff = cb.cursorOff ∧ cb₃.mem = cb.mem ∧
        cb₃.destroy = Except.error Fault.fatalAssert) := by
  have hsp : cb.hasSpaceFor 0 = true := by
    simp [CodeBuffer.hasSpaceFor]
    omega
  have hz : cb.emitZeroedBytes 0 = Except.ok
      ⟨cb.base, cb.managed, cb.cursorOff, true, cb.capacity, cb.mem⟩ := by
    unfold CodeBuffer.emitZeroedBytes
    rw [if_pos hsp]
    simp [writeBytes]
  refine ⟨⟨⟨cb.base, cb.managed, cb.cursorOff, true, cb.capacity, cb.mem⟩,
      ?_, rfl, rfl, rfl, rfl⟩,
    ⟨⟨cb.base, cb.managed, cb.cursorOff, true, cb.capacity, cb.mem⟩,
      hz, rfl, rfl, rfl, rfl⟩, ?_⟩
  · unfold CodeBuffer.emitData
    simp only [List.length_nil]
    rw [if_pos hsp]
    simp [writeBytes]
  · intro haligned
    refine ⟨⟨cb.base, cb.managed, cb.cursorOff, true, cb.capacity,
      cb.mem⟩, ?_, rfl, rfl, rfl, rfl⟩
    rw [align_eq_emitZeroedBytes]
    have h0 : (4 - (cb.base + cb.cursorOff) % 4) % 4 = 0 := by omega
    rw [h0]
    exact hz

/-- C10 witness: on a concrete clean buffer all three zero-sized
operations succeed, leave cursor and contents alone, mark the buffer
dirty and make destruction fail. -/
theorem zero_sized_emits_set_dirty_witness :
    (∃ cb₁, (⟨4, true, 0, false, 2, [5, 6]⟩ : CodeBuffer).emitData [] =
        Except.ok cb₁ ∧ cb₁.dirty = true ∧
      cb₁.cursorOff = 0 ∧ cb₁.mem = [5, 6] ∧
      cb₁.destroy = Except.error Fault.fatalAssert) ∧
    (∃ cb₂, (⟨4, true, 0, false, 2, [5, 6]⟩ :
        CodeBuffer).emitZeroedBytes 0 = Except.ok cb₂ ∧
      cb₂.dirty = true ∧
      cb₂.cursorOff = 0 ∧ cb₂.mem = [5, 6] ∧
      cb₂.destroy = Except.error Fault.fatalAssert) ∧
    ((4 + 0) % 4 = 0 →
      ∃ cb₃, (⟨4, true, 0, false, 2, [5, 6]⟩ : CodeBuffer).align =
          Except.ok cb₃ ∧ cb₃.dirty = true ∧
        cb₃.cursorOff = 0 ∧ cb₃.mem = [5, 6] ∧
        cb₃.destroy = Except.error Fault.fatalAssert) :=
  zero_sized_emits_set_dirty ⟨4, true, 0, false, 2, [5, 6]⟩ (by decide)

/-- Running `emitAll` from any in-invariant state whose remaining
capacity fits the whole batch succeeds, advances the cursor by the
total size, and appends exactly the concatenated bytes after the
existing prefix. -/
theorem emitAll_ok (ds : List (List Nat)) : ∀ cb : CodeBuffer,
    cb.mem.length = cb.capacity →
    cb.cursorOff + sumSizes ds ≤ cb.capacity →
    ∃ cb', cb.emitAll ds = Except.ok cb' ∧
      cb'.capacity = cb.capacity ∧ cb'.mem.length = cb.capacity ∧
      cb'.cursorOff = cb.cursorOff + sumSizes ds ∧
      cb'.mem.take cb'.cursorOff =
        cb.mem.take cb.cursorOff ++ ds.flatten := by
  induction ds with
  | nil =>
    intro cb h1 h2
    exact ⟨cb, rfl, rfl, h1, by simp [sumSizes], by simp⟩
  | cons d ds ih =>
    intro cb h1 h2
    have hsum : sumSizes (d :: ds) = d.length + sumSizes ds := by
      simp [sumSizes]
    have hsp : cb.hasSpaceFor d.length = true := by
      simp [CodeBuffer.hasSpaceFor]
      omega
    have hcurle : cb.cursorOff ≤ cb.mem.length := by omega
    set cb1 : CodeBuffer := ⟨cb.base, cb.managed,
      cb.cursorOff + d.length, true, cb.capacity,
      writeBytes cb.mem cb.cursorOff d⟩ with hcb1
    have hstep : cb.emitData d = Except.ok cb1 := by
      unfold CodeBuffer.emitData
      rw [if_pos hsp]
    have hlen1 : cb1.mem.length = cb.capacity := by
      show (writeBytes cb.mem cb.cursorOff d).length = cb.capacity
      rw [writeBytes_length _ _ _ (by omega), h1]
    have hfit1 : cb1.cursorOff + sumSizes ds ≤ cb1.capacity := by
      show cb.cursorOff + d.length + sumSizes ds ≤ cb.capacity
      omega
    obtain ⟨cb', hrun, hcap, hmlen, hcur, htake⟩ := ih cb1 hlen1 hfit1
    refine ⟨cb', ?_, hcap, by rw [hmlen], ?_, ?_⟩
    · show cb.emitAll (d :: ds) = Except.ok cb'
      unfold CodeBuffer.emitAll
      rw [hstep]
      exact hrun
    · rw [hcur]
      show cb.cursorOff + d.length + sumSizes ds =
        cb.cursorOff + sumSizes (d :: ds)
      omega
    · rw [htake]
      have htk : cb1.mem.take cb1.cursorOff =
          cb.mem.take cb.cursorOff ++ d :=
        writeBytes_take_to_end cb.mem cb.cursorOff d hcurle
      rw [htk, List.flatten_cons, List.append_assoc]

/-- C1: starting from a fresh buffer (cursor at the base), any sequence
of `EmitData` calls whose cumulative size fits the capacity succeeds,
the final cursor offset equals the sum of the emitted sizes, and
reading back `[base, cursor)` yields exactly the concatenation of the
emitted byte sequences. -/
theorem emitData_roundTrip (cb : CodeBuffer) (ds : List (List Nat))
    (hmem : cb.mem.length = cb.capacity) (hstart : cb.cursorOff = 0)
    (hfit : sumSizes ds ≤ cb.capacity) :
    ∃ cb', cb.emitAll ds = Except.ok cb' ∧
      cb'.cursorOff = sumSizes ds ∧
      cb'.mem.take cb'.cursorOff = ds.flatten := by
  obtain ⟨cb', hrun, _, _, hcur, htake⟩ :=
    emitAll_ok ds cb hmem (by omega)
  refine ⟨cb', hrun, by omega, ?_⟩
  rw [htake, hstart]
  simp

/-- C1 witness: emitting `[1, 2]` then `[3]` into a fresh capacity 8
buffer leaves the cursor at 3 and reads back `[1, 2, 3]`. -/
theorem emitData_roundTrip_witness :
    ∃ cb', (⟨4, true, 0, false, 8, List.replicate 8 7⟩ :
        CodeBuffer).emitAll [[1, 2], [3]] = Except.ok cb' ∧
      cb'.cursorOff = sumSizes [[1, 2], [3]] ∧
      cb'.mem.take cb'.cursorOff = [[1, 2], [3]].flatten :=
  emitData_roundTrip ⟨4, true, 0, false, 8, List.replicate 8 7⟩
    [[1, 2], [3]] (by decide) rfl (by decide)

end Vixl
